import Mathlib

/-!
Shallow embedding of the retry/polling utilities of `common_utils.py`.

Modelling conventions:
* A Python callable taking no arguments is embedded as a function of its
  invocation index (`Nat`), returning `Except ε α`: `.error e` models the
  callable raising exception `e`, `.ok v` models it returning `v`.
* Wall-clock time is idealised: `time.time()` reads a clock that starts at 0
  and is advanced only by `time.sleep`, so at the start of loop iteration `n`
  the clock reads `n * check_interval`.  All durations are `Int`, as the
  Python code passes machine integers for `timeout`, `check_interval`,
  `max_retries` and `delay`.
* Loops are made total by fuel; `none` models a run of the Python loop that
  does not terminate within the fuel bound.  The top-level entry points are
  given fuel `timeout.toNat + 1`, which is shown to be enough whenever
  `check_interval ≥ 1`.
* Each embedded run records its observable trace: how many times the callable
  was invoked, how many sleeps were performed (and, for the retrier, their
  durations), and the elapsed times at which a progress message was printed.
-/

instance {ε α : Type} [DecidableEq ε] [DecidableEq α] : DecidableEq (Except ε α) := fun a b =>
  match a, b with
  | .ok a, .ok b =>
    if h : a = b then .isTrue (h ▸ rfl) else .isFalse fun hc => h (Except.ok.inj hc)
  | .error a, .error b =>
    if h : a = b then .isTrue (h ▸ rfl) else .isFalse fun hc => h (Except.error.inj hc)
  | .ok _, .error _ => .isFalse fun hc => Except.noConfusion hc
  | .error _, .ok _ => .isFalse fun hc => Except.noConfusion hc

/-- Trace of one call of `retry_operation`: the outcome (`Except` error for a
re-raised exception, `Option` value since the Python function falls off the end
of the loop and returns `None` when `range(max_retries)` is empty), the number
of invocations of the operation, and the list of sleep durations in order. -/
structure RetryResult (ε α : Type) where
  result : Except ε (Option α)
  calls : Nat
  sleeps : List Int
  deriving Repr, DecidableEq

/-- The `for attempt in range(max_retries)` loop of `retry_operation`
(common_utils.py lines 306-318), with `fuel` the number of remaining loop
iterations (initially `max_retries.toNat`, the length of the Python range).
In iteration `attempt`: invoke the operation and return its value on success;
on an exception, re-raise it if `attempt == max_retries - 1`, otherwise sleep
`delay * 2 ** attempt` and continue. -/
def retryFrom (op : Nat → Except ε α) (max_retries delay : Int) :
    Nat → Nat → RetryResult ε α
  | _, 0 => ⟨.ok none, 0, []⟩
  | attempt, fuel + 1 =>
    match op attempt with
    | .ok v => ⟨.ok (some v), 1, []⟩
    | .error e =>
      if (attempt : Int) = max_retries - 1 then
        ⟨.error e, 1, []⟩
      else
        let wait_time := delay * 2 ^ attempt
        let rest := retryFrom op max_retries delay (attempt + 1) fuel
        ⟨rest.result, rest.calls + 1, wait_time :: rest.sleeps⟩

/-- `retry_operation` (common_utils.py lines 303-318): run the retry loop from
attempt 0 with fuel `max_retries.toNat`, the exact number of iterations of
`range(max_retries)` (zero when `max_retries ≤ 0`). -/
def retry_operation (op : Nat → Except ε α) (max_retries delay : Int) :
    RetryResult ε α :=
  retryFrom op max_retries delay 0 max_retries.toNat

/-- Trace of one call of a polling loop: outcome (an uncaught exception of the
condition, or the returned boolean), number of condition evaluations, number of
sleeps, the clock value when the loop returned, and the elapsed times at which
a progress message was printed, in order. -/
structure PollState (ε : Type) where
  result : Except ε Bool
  polls : Nat
  sleeps : Nat
  elapsed : Int
  progress : List Int
  deriving Repr, DecidableEq

/-- The `while time.time() - start_time < timeout` loop of `wait_with_timeout`
(common_utils.py lines 254-266), at iteration `n` (clock `n * check_interval`).
Evaluate the condition: an exception propagates immediately; `true` returns
immediately; on `false`, print a progress message when
`elapsed % 15 == 0 and elapsed > 0`, sleep `check_interval`, continue. -/
def waitLoop (cond : Nat → Except ε Bool) (timeout check_interval : Int) :
    Nat → Nat → Option (PollState ε)
  | fuel, n =>
    let clock : Int := (n : Int) * check_interval
    if clock < timeout then
      match fuel with
      | 0 => none
      | fuel + 1 =>
        match cond n with
        | .error e => some ⟨.error e, n + 1, n, clock, []⟩
        | .ok true => some ⟨.ok true, n + 1, n, clock, []⟩
        | .ok false =>
          let here := if clock % 15 = 0 ∧ 0 < clock then [clock] else []
          match waitLoop cond timeout check_interval fuel (n + 1) with
          | none => none
          | some st => some ⟨st.result, st.polls, st.sleeps, st.elapsed, here ++ st.progress⟩
    else
      some ⟨.ok false, n, n, clock, []⟩

/-- `wait_with_timeout` (common_utils.py lines 247-266): run the polling loop
from iteration 0.  Fuel `timeout.toNat + 1` never runs out when
`check_interval ≥ 1`. -/
def wait_with_timeout (cond : Nat → Except ε Bool) (timeout check_interval : Int) :
    Option (PollState ε) :=
  waitLoop cond timeout check_interval (timeout.toNat + 1) 0

/-- Exceptions of the Docker helper: `docker.errors.NotFound` or any other
exception. -/
inductive DockerError where
  | notFound
  | other (msg : String)
  deriving Repr, DecidableEq

/-- Python's `ready_msg in logs` on byte strings: substring containment. -/
def bytesContain (logs msg : List Nat) : Bool :=
  (List.range (logs.length + 1)).any fun i => (logs.drop i).take msg.length == msg

/-- The `while` loop of `DockerHelper.wait_for_container` (common_utils.py
lines 110-125), at iteration `n` (clock `n * check_interval`).  Fetch the
container logs (`container.logs()` may raise: the exception propagates to the
surrounding `try`); return `true` as soon as some ready message occurs in the
logs; otherwise print a progress message when `elapsed % 10 == 0`, sleep
`check_interval`, continue. -/
def containerLoop (logsAt : Nat → Except DockerError (List Nat))
    (ready_messages : List (List Nat)) (timeout check_interval : Int) :
    Nat → Nat → Option (PollState DockerError)
  | fuel, n =>
    let clock : Int := (n : Int) * check_interval
    if clock < timeout then
      match fuel with
      | 0 => none
      | fuel + 1 =>
        match logsAt n with
        | .error e => some ⟨.error e, n + 1, n, clock, []⟩
        | .ok logs =>
          if ready_messages.any (fun m => bytesContain logs m) then
            some ⟨.ok true, n + 1, n, clock, []⟩
          else
            let here := if clock % 10 = 0 then [clock] else []
            match containerLoop logsAt ready_messages timeout check_interval fuel (n + 1) with
            | none => none
            | some st => some ⟨st.result, st.polls, st.sleeps, st.elapsed, here ++ st.progress⟩
    else
      some ⟨.ok false, n, n, clock, []⟩

/-- Observable outcome of `DockerHelper.wait_for_container`: the returned
boolean (the function catches every exception and returns a boolean), poll and
sleep counts, progress messages, and which exception (if any) was caught. -/
structure ContainerWaitResult where
  result : Bool
  polls : Nat
  sleeps : Nat
  progress : List Int
  caught : Option DockerError
  deriving Repr, DecidableEq

/-- `DockerHelper.wait_for_container` (common_utils.py lines 101-132):
`lookup` models `self.client.containers.get(container_name)` (before the loop),
`logsAt n` models the `container.logs()` call of iteration `n`.  The whole body
sits in a `try` whose `except docker.errors.NotFound` and `except Exception`
handlers both print an error and return `False`. -/
def wait_for_container (lookup : Except DockerError Unit)
    (logsAt : Nat → Except DockerError (List Nat))
    (ready_messages : List (List Nat)) (timeout check_interval : Int) :
    Option ContainerWaitResult :=
  match lookup with
  | .error e => some ⟨false, 0, 0, [], some e⟩
  | .ok _ =>
    match containerLoop logsAt ready_messages timeout check_interval (timeout.toNat + 1) 0 with
    | none => none
    | some st =>
      match st.result with
      | .ok b => some ⟨b, st.polls, st.sleeps, st.progress, none⟩
      | .error e => some ⟨false, st.polls, st.sleeps, st.progress, some e⟩

/-- The elapsed times at which the generic poller prints a progress message
during iterations `n, n+1, …, stop-1`, all with a false condition: those clock
values `k * check_interval` that are positive multiples of 15. -/
def genProgress (check_interval : Int) (n stop : Nat) : List Int :=
  ((List.range' n (stop - n)).map fun k : Nat => (k : Int) * check_interval).filter
    fun c => decide (c % 15 = 0 ∧ 0 < c)

/-- The elapsed times at which the container poller prints a progress message
during iterations `n, n+1, …, stop-1`, all without a ready message: those clock
values `k * check_interval` that are multiples of 10 (including 0). -/
def contProgress (check_interval : Int) (n stop : Nat) : List Int :=
  ((List.range' n (stop - n)).map fun k : Nat => (k : Int) * check_interval).filter
    fun c => decide (c % 10 = 0)

/-- `⌈T / I⌉` on naturals, the number of polls of a full (never-succeeding) run
with timeout `T` and interval `I`. -/
def ceilDivN (T I : Nat) : Nat := (T + I - 1) / I

/-! Section: Unfolding lemmas for the generic polling loop -/

theorem waitLoop_exit (cond : Nat → Except ε Bool) (T I : Int) (fuel n : Nat)
    (h : ¬ (n : Int) * I < T) :
    waitLoop cond T I fuel n = some ⟨.ok false, n, n, (n : Int) * I, []⟩ := by
  rw [waitLoop.eq_def]
  simp [h]

theorem waitLoop_step_true (cond : Nat → Except ε Bool) (T I : Int) (fuel n : Nat)
    (hlt : (n : Int) * I < T) (hc : cond n = .ok true) :
    waitLoop cond T I (fuel + 1) n = some ⟨.ok true, n + 1, n, (n : Int) * I, []⟩ := by
  rw [waitLoop.eq_def]
  simp [hlt, hc]

theorem waitLoop_step_err (cond : Nat → Except ε Bool) (T I : Int) (fuel n : Nat) (e : ε)
    (hlt : (n : Int) * I < T) (hc : cond n = .error e) :
    waitLoop cond T I (fuel + 1) n = some ⟨.error e, n + 1, n, (n : Int) * I, []⟩ := by
  rw [waitLoop.eq_def]
  simp [hlt, hc]

theorem waitLoop_step_false (cond : Nat → Except ε Bool) (T I : Int) (fuel n : Nat)
    (hlt : (n : Int) * I < T) (hc : cond n = .ok false) :
    waitLoop cond T I (fuel + 1) n = (waitLoop cond T I fuel (n + 1)).map fun st =>
      ⟨st.result, st.polls, st.sleeps, st.elapsed,
        (if (n : Int) * I % 15 = 0 ∧ 0 < (n : Int) * I then [(n : Int) * I] else []) ++
          st.progress⟩ := by
  rw [waitLoop.eq_def]
  simp only [hlt, if_true, hc]
  cases waitLoop cond T I fuel (n + 1) <;> simp

theorem genProgress_stop (I : Int) (n : Nat) : genProgress I n n = [] := by
  simp [genProgress]

theorem genProgress_cons (I : Int) (n stop : Nat) (h : n < stop) :
    genProgress I n stop =
      (if (n : Int) * I % 15 = 0 ∧ 0 < (n : Int) * I then [(n : Int) * I] else []) ++
        genProgress I (n + 1) stop := by
  unfold genProgress
  have hs : stop - n = (stop - (n + 1)) + 1 := by omega
  rw [hs, List.range'_succ, List.map_cons, List.filter_cons]
  by_cases hp : (n : Int) * I % 15 = 0 ∧ 0 < (n : Int) * I
  · rw [if_pos (by simpa using hp), if_pos hp]; rfl
  · rw [if_neg (by simpa using hp), if_neg hp]; rfl

/-- A full run of the generic loop over iterations `n, …, stop-1` on which the
condition is always false, stopping because the clock reaches the timeout. -/
theorem waitLoop_false_run (cond : Nat → Except ε Bool) (T I : Int) (stop : Nat)
    (hstop : T ≤ (stop : Int) * I) :
    ∀ fuel n, n ≤ stop → stop - n ≤ fuel →
      (∀ m, n ≤ m → m < stop → (m : Int) * I < T) →
      (∀ i, n ≤ i → i < stop → cond i = .ok false) →
      waitLoop cond T I fuel n =
        some ⟨.ok false, stop, stop, (stop : Int) * I, genProgress I n stop⟩ := by
  intro fuel
  induction fuel with
  | zero =>
    intro n hn hfuel _ _
    have hns : n = stop := by omega
    subst hns
    rw [waitLoop_exit cond T I 0 n (by omega), genProgress_stop]
  | succ fuel ih =>
    intro n hn hfuel hlt hc
    rcases Nat.lt_or_ge n stop with hlt' | hge
    · rw [waitLoop_step_false cond T I fuel n (hlt n le_rfl hlt') (hc n le_rfl hlt'),
        ih (n + 1) (by omega) (by omega) (fun m hm1 hm2 => hlt m (by omega) hm2)
          (fun i hi1 hi2 => hc i (by omega) hi2)]
      simp [genProgress_cons I n stop hlt']
    · have hns : n = stop := by omega
      subst hns
      rw [waitLoop_exit cond T I _ n (by omega), genProgress_stop]

/-- A run of the generic loop on which the condition is false on iterations
`n, …, j-1` and true on iteration `j`, which the clock still reaches. -/
theorem waitLoop_true_run (cond : Nat → Except ε Bool) (T I : Int) (j : Nat)
    (hj : cond j = .ok true) :
    ∀ fuel n, n ≤ j → j - n < fuel →
      (∀ m, n ≤ m → m ≤ j → (m : Int) * I < T) →
      (∀ i, n ≤ i → i < j → cond i = .ok false) →
      waitLoop cond T I fuel n =
        some ⟨.ok true, j + 1, j, (j : Int) * I, genProgress I n j⟩ := by
  intro fuel
  induction fuel with
  | zero => intro n _ hfuel _ _; omega
  | succ fuel ih =>
    intro n hn hfuel hlt hc
    rcases Nat.lt_or_ge n j with hlt' | hge
    · rw [waitLoop_step_false cond T I fuel n (hlt n le_rfl (by omega)) (hc n le_rfl hlt'),
        ih (n + 1) (by omega) (by omega) (fun m hm1 hm2 => hlt m (by omega) hm2)
          (fun i hi1 hi2 => hc i (by omega) hi2)]
      simp [genProgress_cons I n j hlt']
    · have hns : n = j := by omega
      subst hns
      rw [waitLoop_step_true cond T I fuel n (hlt n le_rfl le_rfl) hj, genProgress_stop]

/-- A run of the generic loop on which the condition is false on iterations
`n, …, j-1` and raises on iteration `j`, which the clock still reaches. -/
theorem waitLoop_err_run (cond : Nat → Except ε Bool) (T I : Int) (j : Nat) (e : ε)
    (hj : cond j = .error e) :
    ∀ fuel n, n ≤ j → j - n < fuel →
      (∀ m, n ≤ m → m ≤ j → (m : Int) * I < T) →
      (∀ i, n ≤ i → i < j → cond i = .ok false) →
      waitLoop cond T I fuel n =
        some ⟨.error e, j + 1, j, (j : Int) * I, genProgress I n j⟩ := by
  intro fuel
  induction fuel with
  | zero => intro n _ hfuel _ _; omega
  | succ fuel ih =>
    intro n hn hfuel hlt hc
    rcases Nat.lt_or_ge n j with hlt' | hge
    · rw [waitLoop_step_false cond T I fuel n (hlt n le_rfl (by omega)) (hc n le_rfl hlt'),
        ih (n + 1) (by omega) (by omega) (fun m hm1 hm2 => hlt m (by omega) hm2)
          (fun i hi1 hi2 => hc i (by omega) hi2)]
      simp [genProgress_cons I n j hlt']
    · have hns : n = j := by omega
      subst hns
      rw [waitLoop_step_err cond T I fuel n e (hlt n le_rfl le_rfl) hj, genProgress_stop]

/-! Section: Unfolding lemmas for the container polling loop -/

theorem containerLoop_exit (logsAt : Nat → Except DockerError (List Nat))
    (msgs : List (List Nat)) (T I : Int) (fuel n : Nat) (h : ¬ (n : Int) * I < T) :
    containerLoop logsAt msgs T I fuel n = some ⟨.ok false, n, n, (n : Int) * I, []⟩ := by
  rw [containerLoop.eq_def]
  simp [h]

theorem containerLoop_step_err (logsAt : Nat → Except DockerError (List Nat))
    (msgs : List (List Nat)) (T I : Int) (fuel n : Nat) (e : DockerError)
    (hlt : (n : Int) * I < T) (hc : logsAt n = .error e) :
    containerLoop logsAt msgs T I (fuel + 1) n =
      some ⟨.error e, n + 1, n, (n : Int) * I, []⟩ := by
  rw [containerLoop.eq_def]
  simp [hlt, hc]

theorem containerLoop_step_notReady (logsAt : Nat → Except DockerError (List Nat))
    (msgs : List (List Nat)) (T I : Int) (fuel n : Nat) (logs : List Nat)
    (hlt : (n : Int) * I < T) (hc : logsAt n = .ok logs)
    (hr : msgs.any (fun m => bytesContain logs m) = false) :
    containerLoop logsAt msgs T I (fuel + 1) n =
      (containerLoop logsAt msgs T I fuel (n + 1)).map fun st =>
        ⟨st.result, st.polls, st.sleeps, st.elapsed,
          (if (n : Int) * I % 10 = 0 then [(n : Int) * I] else []) ++ st.progress⟩ := by
  rw [containerLoop.eq_def]
  simp only [hlt, if_true, hc, hr]
  cases containerLoop logsAt msgs T I fuel (n + 1) <;> simp

theorem contProgress_stop (I : Int) (n : Nat) : contProgress I n n = [] := by
  simp [contProgress]

theorem contProgress_cons (I : Int) (n stop : Nat) (h : n < stop) :
    contProgress I n stop =
      (if (n : Int) * I % 10 = 0 then [(n : Int) * I] else []) ++
        contProgress I (n + 1) stop := by
  unfold contProgress
  have hs : stop - n = (stop - (n + 1)) + 1 := by omega
  rw [hs, List.range'_succ, List.map_cons, List.filter_cons]
  by_cases hp : (n : Int) * I % 10 = 0
  · rw [if_pos (by simpa using hp), if_pos hp]; rfl
  · rw [if_neg (by simpa using hp), if_neg hp]; rfl

/-- A full run of the container loop over iterations `n, …, stop-1` on which
the logs never hold a ready message, stopping at the timeout. -/
theorem containerLoop_false_run (logsAt : Nat → Except DockerError (List Nat))
    (msgs : List (List Nat)) (ls : Nat → List Nat) (T I : Int) (stop : Nat)
    (hstop : T ≤ (stop : Int) * I) :
    ∀ fuel n, n ≤ stop → stop - n ≤ fuel →
      (∀ m, n ≤ m → m < stop → (m : Int) * I < T) →
      (∀ i, n ≤ i → i < stop → logsAt i = .ok (ls i)) →
      (∀ i, n ≤ i → i < stop → msgs.any (fun m => bytesContain (ls i) m) = false) →
      containerLoop logsAt msgs T I fuel n =
        some ⟨.ok false, stop, stop, (stop : Int) * I, contProgress I n stop⟩ := by
  intro fuel
  induction fuel with
  | zero =>
    intro n hn hfuel _ _ _
    have hns : n = stop := by omega
    subst hns
    rw [containerLoop_exit logsAt msgs T I 0 n (by omega), contProgress_stop]
  | succ fuel ih =>
    intro n hn hfuel hlt hlog hr
    rcases Nat.lt_or_ge n stop with hlt' | hge
    · rw [containerLoop_step_notReady logsAt msgs T I fuel n (ls n) (hlt n le_rfl hlt')
          (hlog n le_rfl hlt') (hr n le_rfl hlt'),
        ih (n + 1) (by omega) (by omega) (fun m hm1 hm2 => hlt m (by omega) hm2)
          (fun i hi1 hi2 => hlog i (by omega) hi2) (fun i hi1 hi2 => hr i (by omega) hi2)]
      simp [contProgress_cons I n stop hlt']
    · have hns : n = stop := by omega
      subst hns
      rw [containerLoop_exit logsAt msgs T I _ n (by omega), contProgress_stop]

/-- A run of the container loop with no ready message on iterations `n, …, j-1`
and a raising `container.logs()` call on iteration `j`. -/
theorem containerLoop_err_run (logsAt : Nat → Except DockerError (List Nat))
    (msgs : List (List Nat)) (ls : Nat → List Nat) (T I : Int) (j : Nat) (e : DockerError)
    (hj : logsAt j = .error e) :
    ∀ fuel n, n ≤ j → j - n < fuel →
      (∀ m, n ≤ m → m ≤ j → (m : Int) * I < T) →
      (∀ i, n ≤ i → i < j → logsAt i = .ok (ls i)) →
      (∀ i, n ≤ i → i < j → msgs.any (fun m => bytesContain (ls i) m) = false) →
      containerLoop logsAt msgs T I fuel n =
        some ⟨.error e, j + 1, j, (j : Int) * I, contProgress I n j⟩ := by
  intro fuel
  induction fuel with
  | zero => intro n _ hfuel _ _ _; omega
  | succ fuel ih =>
    intro n hn hfuel hlt hlog hr
    rcases Nat.lt_or_ge n j with hlt' | hge
    · rw [containerLoop_step_notReady logsAt msgs T I fuel n (ls n) (hlt n le_rfl (by omega))
          (hlog n le_rfl hlt') (hr n le_rfl hlt'),
        ih (n + 1) (by omega) (by omega) (fun m hm1 hm2 => hlt m (by omega) hm2)
          (fun i hi1 hi2 => hlog i (by omega) hi2) (fun i hi1 hi2 => hr i (by omega) hi2)]
      simp [contProgress_cons I n j hlt']
    · have hns : n = j := by omega
      subst hns
      rw [containerLoop_step_err logsAt msgs T I fuel n e (hlt n le_rfl le_rfl) hj,
        contProgress_stop]

/-! Section: Arithmetic facts about the poll count `⌈T / I⌉` -/

theorem ceilDivN_mul_ge (T I : Nat) (hT : 1 ≤ T) (hI : 1 ≤ I) : T ≤ ceilDivN T I * I := by
  unfold ceilDivN
  have h1 : (T + I - 1) / I * I + (T + I - 1) % I = T + I - 1 := Nat.div_add_mod' _ _
  have h2 : (T + I - 1) % I < I := Nat.mod_lt _ (by omega)
  omega

theorem ceilDivN_mul_lt (T I m : Nat) (hT : 1 ≤ T) (hI : 1 ≤ I)
    (hm : m < ceilDivN T I) : m * I < T := by
  unfold ceilDivN at hm
  have h1 : (T + I - 1) / I * I + (T + I - 1) % I = T + I - 1 := Nat.div_add_mod' _ _
  have h2 : (T + I - 1) % I < I := Nat.mod_lt _ (by omega)
  have h3 : m * I + I ≤ (T + I - 1) / I * I := by
    have := Nat.mul_le_mul_right I hm
    simpa [Nat.add_mul] using this
  omega

theorem ceilDivN_le (T I : Nat) (hT : 1 ≤ T) (hI : 1 ≤ I) : ceilDivN T I ≤ T := by
  unfold ceilDivN
  have h4 : (T + I - 1) / I < T + 1 := by
    rw [Nat.div_lt_iff_lt_mul (by omega : 0 < I)]
    have h5 : (T + 1) * I = T * I + I := by ring
    have h6 : T ≤ T * I := Nat.le_mul_of_pos_right T (by omega)
    omega
  omega

/-! Section: Run lemmas for the retry loop -/

theorem retryFrom_fail_run (op : Nat → Except ε α) (mr delay : Int) (err : Nat → ε)
    (hop : ∀ n, op n = .error (err n)) (hmr : 1 ≤ mr) :
    ∀ fuel attempt, attempt < mr.toNat → mr.toNat - attempt ≤ fuel →
      retryFrom op mr delay attempt fuel =
        ⟨.error (err (mr.toNat - 1)), mr.toNat - attempt,
          (List.range' attempt (mr.toNat - 1 - attempt)).map fun a : Nat => delay * 2 ^ a⟩ := by
  intro fuel
  induction fuel with
  | zero => intro attempt h1 h2; omega
  | succ fuel ih =>
    intro attempt h1 h2
    have hN : ((mr.toNat : Int)) = mr := Int.toNat_of_nonneg (by omega)
    rw [retryFrom.eq_def]
    simp only [hop attempt]
    by_cases hlast : (attempt : Int) = mr - 1
    · rw [if_pos hlast]
      have ha : attempt = mr.toNat - 1 := by omega
      subst ha
      have h3 : mr.toNat - (mr.toNat - 1) = 1 := by omega
      have h4 : mr.toNat - 1 - (mr.toNat - 1) = 0 := by omega
      rw [h3, h4]
      rfl
    · rw [if_neg hlast]
      have hlt : attempt + 1 < mr.toNat := by omega
      simp only [ih (attempt + 1) hlt (by omega)]
      have h5 : mr.toNat - (attempt + 1) + 1 = mr.toNat - attempt := by omega
      have h6 : mr.toNat - 1 - attempt = (mr.toNat - 1 - (attempt + 1)) + 1 := by omega
      rw [h6, List.range'_succ, List.map_cons]
      simp [h5]

theorem retryFrom_ok_run (op : Nat → Except ε α) (mr delay : Int) (err : Nat → ε)
    (j : Nat) (v : α) (hj : op j = .ok v) (hjm : (j : Int) < mr)
    (hfail : ∀ i, i < j → op i = .error (err i)) :
    ∀ fuel attempt, attempt ≤ j → j - attempt < fuel →
      retryFrom op mr delay attempt fuel =
        ⟨.ok (some v), j + 1 - attempt,
          (List.range' attempt (j - attempt)).map fun a : Nat => delay * 2 ^ a⟩ := by
  intro fuel
  induction fuel with
  | zero => intro attempt h1 h2; omega
  | succ fuel ih =>
    intro attempt h1 h2
    rcases Nat.lt_or_ge attempt j with hlt' | hge
    · rw [retryFrom.eq_def]
      simp only [hfail attempt hlt']
      have hlast : ¬ (attempt : Int) = mr - 1 := by
        have : (attempt : Int) < (j : Int) := by exact_mod_cast hlt'
        omega
      rw [if_neg hlast]
      simp only [ih (attempt + 1) (by omega) (by omega)]
      have h5 : j + 1 - (attempt + 1) + 1 = j + 1 - attempt := by omega
      have h6 : j - attempt = (j - (attempt + 1)) + 1 := by omega
      rw [h6, List.range'_succ, List.map_cons]
      simp only [h5]
    · have ha : attempt = j := by omega
      subst ha
      rw [retryFrom.eq_def]
      simp only [hj]
      have h3 : attempt + 1 - attempt = 1 := by omega
      have h4 : attempt - attempt = 0 := by omega
      rw [h3, h4]
      rfl

/-- For timeout ≥ 1 and interval ≥ 1, `ceilDivN timeout.toNat interval.toNat` is
the exact stopping iteration of the polling loops: the first `m` with
`m * interval ≥ timeout`; it is also at most `timeout.toNat`. -/
theorem stop_spec (timeout check_interval : Int) (hT : 1 ≤ timeout) (hI : 1 ≤ check_interval) :
    timeout ≤ (ceilDivN timeout.toNat check_interval.toNat : Int) * check_interval ∧
    (∀ m : Nat, m < ceilDivN timeout.toNat check_interval.toNat →
      (m : Int) * check_interval < timeout) ∧
    ceilDivN timeout.toNat check_interval.toNat ≤ timeout.toNat := by
  have h2 : ((timeout.toNat : Int)) = timeout := Int.toNat_of_nonneg (by omega)
  have h3 : ((check_interval.toNat : Int)) = check_interval := Int.toNat_of_nonneg (by omega)
  refine ⟨?_, ?_, ceilDivN_le _ _ (by omega) (by omega)⟩
  · have h := ceilDivN_mul_ge timeout.toNat check_interval.toNat (by omega) (by omega)
    calc timeout = (timeout.toNat : Int) := h2.symm
      _ ≤ ((ceilDivN timeout.toNat check_interval.toNat * check_interval.toNat : Nat) : Int) := by
          exact_mod_cast h
      _ = (ceilDivN timeout.toNat check_interval.toNat : Int) * check_interval := by
          push_cast [h3]; ring
  · intro m hm
    have h := ceilDivN_mul_lt timeout.toNat check_interval.toNat m (by omega) (by omega) hm
    calc (m : Int) * check_interval
        = ((m * check_interval.toNat : Nat) : Int) := by push_cast [h3]; ring
      _ < ((timeout.toNat : Nat) : Int) := by exact_mod_cast h
      _ = timeout := h2

/-! Section: Claims -/

/-- Claim C1: for every `max_retries ≥ 1` and every operation that raises on
every invocation, `retry_operation` invokes the operation exactly `max_retries`
times and its final outcome is the very exception raised by the last attempt
(attempt `max_retries - 1`), not swallowed or replaced. -/
theorem retry_alwaysFailing_exhausts_and_reraises {ε α : Type}
    (op : Nat → Except ε α) (max_retries delay : Int) (err : Nat → ε)
    (hmr : 1 ≤ max_retries) (hop : ∀ n, op n = .error (err n)) :
    (retry_operation op max_retries delay).calls = max_retries.toNat ∧
    (retry_operation op max_retries delay).result =
      .error (err (max_retries.toNat - 1)) := by
  unfold retry_operation
  rw [retryFrom_fail_run op max_retries delay err hop hmr max_retries.toNat 0
    (by omega) (by omega)]
  exact ⟨rfl, rfl⟩

theorem retry_alwaysFailing_exhausts_and_reraises_witness :
    (retry_operation (fun n => (.error n : Except Nat Nat)) 3 2).calls = (3 : Int).toNat ∧
    (retry_operation (fun n => (.error n : Except Nat Nat)) 3 2).result =
      .error ((3 : Int).toNat - 1) :=
  retry_alwaysFailing_exhausts_and_reraises (fun n => .error n) 3 2 (fun n => n)
    (by norm_num) (fun _ => rfl)

/-- Claim C2: for every `max_retries ≥ 1` and every operation that raises on
its first `k - 1` invocations and succeeds on invocation `k ≤ max_retries`,
`retry_operation` invokes the operation exactly `k` times and returns the value
of the `k`-th invocation unchanged. -/
theorem retry_succeeds_on_attempt_k {ε α : Type}
    (op : Nat → Except ε α) (max_retries delay : Int) (err : Nat → ε) (k : Nat) (v : α)
    (hk : 1 ≤ k) (hkm : (k : Int) ≤ max_retries)
    (hsucc : op (k - 1) = .ok v) (hfail : ∀ i, i < k - 1 → op i = .error (err i)) :
    (retry_operation op max_retries delay).calls = k ∧
    (retry_operation op max_retries delay).result = .ok (some v) := by
  unfold retry_operation
  rw [retryFrom_ok_run op max_retries delay err (k - 1) v hsucc (by omega) hfail
    max_retries.toNat 0 (by omega) (by omega)]
  refine ⟨?_, rfl⟩
  show k - 1 + 1 - 0 = k
  omega

theorem retry_succeeds_on_attempt_k_witness :
    (retry_operation (fun n => if n = 1 then (.ok 42 : Except Nat Nat) else .error n) 3 2).calls
      = 2 ∧
    (retry_operation (fun n => if n = 1 then (.ok 42 : Except Nat Nat) else .error n) 3 2).result
      = .ok (some 42) :=
  retry_succeeds_on_attempt_k (fun n => if n = 1 then (.ok 42 : Except Nat Nat) else .error n)
    3 2 (fun n => n) 2 42 (by norm_num) (by norm_num) rfl
    (fun i hi => by interval_cases i; rfl)

/-- Claim C3: on an always-failing run of `retry_operation` the sleep performed
before attempt `i` (0-indexed, `i ≥ 1`) lasts exactly `delay * 2 ^ (i - 1)`
(so the sleep list is `[delay * 2 ^ 0, delay * 2 ^ 1, …]`, and with `delay = 2`
the first three sleeps are 2, 4, 8), and for `delay ≥ 0` the sleep sequence is
non-decreasing. -/
theorem retry_backoff_doubling {ε α : Type}
    (op : Nat → Except ε α) (max_retries delay : Int) (err : Nat → ε)
    (hmr : 1 ≤ max_retries) (hop : ∀ n, op n = .error (err n)) :
    (retry_operation op max_retries delay).sleeps =
      (List.range (max_retries.toNat - 1)).map (fun a : Nat => delay * 2 ^ a) ∧
    (∀ i : Nat, 1 ≤ i → i < max_retries.toNat →
      (retry_operation op max_retries delay).sleeps[i - 1]? = some (delay * 2 ^ (i - 1))) ∧
    (0 ≤ delay → (retry_operation op max_retries delay).sleeps.Chain' (· ≤ ·)) := by
  have hs : (retry_operation op max_retries delay).sleeps =
      (List.range (max_retries.toNat - 1)).map (fun a : Nat => delay * 2 ^ a) := by
    unfold retry_operation
    rw [retryFrom_fail_run op max_retries delay err hop hmr max_retries.toNat 0
      (by omega) (by omega)]
    simp [List.range_eq_range']
  refine ⟨hs, ?_, ?_⟩
  · intro i hi1 hi2
    rw [hs, List.getElem?_map, List.getElem?_range (by omega : i - 1 < max_retries.toNat - 1)]
    rfl
  · intro hd
    rw [hs]
    apply List.Pairwise.chain'
    rw [List.pairwise_map]
    refine List.Pairwise.imp ?_ (List.pairwise_lt_range _)
    intro a b hab
    exact mul_le_mul_of_nonneg_left (pow_le_pow_right₀ (by norm_num) hab.le) hd

theorem retry_backoff_doubling_witness :
    (retry_operation (fun n => (.error n : Except Nat Nat)) 4 2).sleeps = [2, 4, 8] ∧
    (retry_operation (fun n => (.error n : Except Nat Nat)) 4 2).sleeps.Chain' (· ≤ ·) := by
  have h := retry_backoff_doubling (fun n => (.error n : Except Nat Nat)) 4 2 (fun n => n)
    (by norm_num) (fun _ => rfl)
  refine ⟨by rw [h.1]; decide, h.2.2 (by norm_num)⟩

/-- Claim C4: for positive timeout and interval, if the condition first returns
true at poll `j` (an actually reached poll: `j * check_interval < timeout`),
`wait_with_timeout` returns true at exactly that poll, having evaluated the
condition `j + 1` times and slept only the `j` times before it, at elapsed time
`j * check_interval` (for the spec's example, true at check 3 with interval 1
gives elapsed 2, not the full timeout). -/
theorem poller_returns_true_at_first_true_poll {ε : Type}
    (cond : Nat → Except ε Bool) (timeout check_interval : Int) (j : Nat)
    (hI : 1 ≤ check_interval) (hj : cond j = .ok true)
    (hfalse : ∀ i, i < j → cond i = .ok false)
    (hin : (j : Int) * check_interval < timeout) :
    wait_with_timeout cond timeout check_interval =
      some ⟨.ok true, j + 1, j, (j : Int) * check_interval,
        genProgress check_interval 0 j⟩ := by
  unfold wait_with_timeout
  have hfuel : j < timeout.toNat + 1 := by
    have h1 : (j : Int) ≤ (j : Int) * check_interval := le_mul_of_one_le_right (by omega) hI
    omega
  refine waitLoop_true_run cond timeout check_interval j hj (timeout.toNat + 1) 0
    (by omega) (by omega) ?_ (fun i _ hi => hfalse i hi)
  intro m _ hm
  calc (m : Int) * check_interval ≤ (j : Int) * check_interval := by
        exact mul_le_mul_of_nonneg_right (by exact_mod_cast hm) (by omega)
    _ < timeout := hin

theorem poller_returns_true_at_first_true_poll_witness :
    wait_with_timeout (fun n => (.ok (n == 2) : Except Unit Bool)) 60 1 =
      some ⟨.ok true, 3, 2, 2, []⟩ := by
  have h := poller_returns_true_at_first_true_poll (fun n => (.ok (n == 2) : Except Unit Bool))
    60 1 2 (by norm_num) rfl (fun i hi => by interval_cases i <;> rfl) (by norm_num)
  rw [h]
  decide

/-- Claim C5: for timeout ≥ 1 and interval ≥ 1, if the condition returns false
on every evaluation, `wait_with_timeout` returns false, having evaluated the
condition exactly `⌈timeout / check_interval⌉` times (e.g. 3 times for
timeout 5 and interval 2), with final elapsed time in
`[timeout, timeout + check_interval)` — i.e. it stops as soon as elapsed time
reaches the timeout. -/
theorem poller_false_run_poll_count {ε : Type}
    (cond : Nat → Except ε Bool) (timeout check_interval : Int)
    (hT : 1 ≤ timeout) (hI : 1 ≤ check_interval) (hfalse : ∀ i, cond i = .ok false) :
    wait_with_timeout cond timeout check_interval =
      some ⟨.ok false, ceilDivN timeout.toNat check_interval.toNat,
        ceilDivN timeout.toNat check_interval.toNat,
        (ceilDivN timeout.toNat check_interval.toNat : Int) * check_interval,
        genProgress check_interval 0 (ceilDivN timeout.toNat check_interval.toNat)⟩ ∧
    timeout ≤ (ceilDivN timeout.toNat check_interval.toNat : Int) * check_interval ∧
    (ceilDivN timeout.toNat check_interval.toNat : Int) * check_interval <
      timeout + check_interval := by
  obtain ⟨hstop, hlt, hle⟩ := stop_spec timeout check_interval hT hI
  refine ⟨?_, hstop, ?_⟩
  · unfold wait_with_timeout
    exact waitLoop_false_run cond timeout check_interval _ hstop (timeout.toNat + 1) 0
      (by omega) (by omega) (fun m _ hm => hlt m hm) (fun i _ _ => hfalse i)
  · have hpos : 1 ≤ ceilDivN timeout.toNat check_interval.toNat := by
      by_contra h
      have h0 : ceilDivN timeout.toNat check_interval.toNat = 0 := by omega
      rw [h0] at hstop
      simp at hstop
      omega
    have h := hlt (ceilDivN timeout.toNat check_interval.toNat - 1) (by omega)
    have hc : ((ceilDivN timeout.toNat check_interval.toNat - 1 : Nat) : Int) =
        (ceilDivN timeout.toNat check_interval.toNat : Int) - 1 := by omega
    rw [hc, sub_mul, one_mul] at h
    omega

theorem poller_false_run_poll_count_witness :
    wait_with_timeout (fun _ => (.ok false : Except Unit Bool)) 5 2 =
      some ⟨.ok false, 3, 3, 6, []⟩ ∧ (5 : Int) ≤ 6 ∧ (6 : Int) < 5 + 2 := by
  have h := poller_false_run_poll_count (fun _ => (.ok false : Except Unit Bool)) 5 2
    (by norm_num) (by norm_num) (fun _ => rfl)
  refine ⟨?_, by norm_num, by norm_num⟩
  rw [h.1]
  decide

/-- Claim C7: an exception raised by the condition of `wait_with_timeout` is
not caught: the run's outcome is that exception, and the loop performs no
further condition evaluations (exactly `j + 1` when the raise happens at poll
`j`) and no further sleeps (exactly the `j` sleeps that preceded the raising
poll). -/
theorem poller_propagates_condition_exception {ε : Type}
    (cond : Nat → Except ε Bool) (timeout check_interval : Int) (j : Nat) (e : ε)
    (hI : 1 ≤ check_interval) (hj : cond j = .error e)
    (hfalse : ∀ i, i < j → cond i = .ok false)
    (hin : (j : Int) * check_interval < timeout) :
    wait_with_timeout cond timeout check_interval =
      some ⟨.error e, j + 1, j, (j : Int) * check_interval,
        genProgress check_interval 0 j⟩ := by
  unfold wait_with_timeout
  have hfuel : j < timeout.toNat + 1 := by
    have h1 : (j : Int) ≤ (j : Int) * check_interval := le_mul_of_one_le_right (by omega) hI
    omega
  refine waitLoop_err_run cond timeout check_interval j e hj (timeout.toNat + 1) 0
    (by omega) (by omega) ?_ (fun i _ hi => hfalse i hi)
  intro m _ hm
  calc (m : Int) * check_interval ≤ (j : Int) * check_interval := by
        exact mul_le_mul_of_nonneg_right (by exact_mod_cast hm) (by omega)
    _ < timeout := hin

theorem poller_propagates_condition_exception_witness :
    wait_with_timeout (fun n => if n = 2 then (.error () : Except Unit Bool) else .ok false)
      60 5 = some ⟨.error (), 3, 2, 10, []⟩ := by
  have h := poller_propagates_condition_exception
    (fun n => if n = 2 then (.error () : Except Unit Bool) else .ok false) 60 5 2 ()
    (by norm_num) rfl (fun i hi => by interval_cases i <;> rfl) (by norm_num)
  rw [h]
  decide

/-- Claim C6: `DockerHelper.wait_for_container` never re-raises: a not-found
error from the container lookup yields an immediate `false` return with the
error reported and no poll and no sleep, and an exception raised during the
wait loop (here: by the `container.logs()` call of any reached iteration `j`)
also yields a `false` return with the error reported instead of propagating. -/
theorem wait_for_container_catches_errors :
    (∀ (e : DockerError) (logsAt : Nat → Except DockerError (List Nat))
        (msgs : List (List Nat)) (timeout check_interval : Int),
      wait_for_container (.error e) logsAt msgs timeout check_interval =
        some ⟨false, 0, 0, [], some e⟩) ∧
    (∀ (logsAt : Nat → Except DockerError (List Nat)) (msgs : List (List Nat))
        (ls : Nat → List Nat) (timeout check_interval : Int) (j : Nat) (e : DockerError),
      1 ≤ check_interval →
      (∀ i, i < j → logsAt i = .ok (ls i)) →
      (∀ i, i < j → msgs.any (fun m => bytesContain (ls i) m) = false) →
      logsAt j = .error e →
      (j : Int) * check_interval < timeout →
      wait_for_container (.ok ()) logsAt msgs timeout check_interval =
        some ⟨false, j + 1, j, contProgress check_interval 0 j, some e⟩) := by
  constructor
  · intro e logsAt msgs timeout check_interval
    rfl
  · intro logsAt msgs ls timeout check_interval j e hI hlog hr hj hin
    have hfuel : j < timeout.toNat + 1 := by
      have h1 : (j : Int) ≤ (j : Int) * check_interval := le_mul_of_one_le_right (by omega) hI
      omega
    have hrun := containerLoop_err_run logsAt msgs ls timeout check_interval j e hj
      (timeout.toNat + 1) 0 (by omega) (by omega) ?_ (fun i _ hi => hlog i hi)
      (fun i _ hi => hr i hi)
    · unfold wait_for_container
      rw [hrun]
    · intro m _ hm
      calc (m : Int) * check_interval ≤ (j : Int) * check_interval := by
            exact mul_le_mul_of_nonneg_right (by exact_mod_cast hm) (by omega)
        _ < timeout := hin

theorem wait_for_container_catches_errors_witness :
    wait_for_container (.error .notFound) (fun _ => .ok []) [[1]] 60 2 =
      some ⟨false, 0, 0, [], some .notFound⟩ ∧
    wait_for_container (.ok ()) (fun n => if n = 1 then .error (.other "boom") else .ok [])
      [[1]] 60 2 = some ⟨false, 2, 1, [0], some (.other "boom")⟩ := by
  constructor
  · exact wait_for_container_catches_errors.1 .notFound (fun _ => .ok []) [[1]] 60 2
  · have h := wait_for_container_catches_errors.2
      (fun n => if n = 1 then .error (.other "boom") else .ok []) [[1]] (fun _ => [])
      60 2 1 (.other "boom") (by norm_num) (fun i hi => by interval_cases i; rfl)
      (fun i hi => by interval_cases i; rfl) rfl (by norm_num)
    rw [h]
    decide

/-- Claim C8 counterexample: the claim says the generic poller emits a "still
waiting" message exactly when the elapsed whole-second time is a multiple of
15.  In the run with timeout 1 and interval 1 and an always-false condition,
the single poll happens at elapsed 0, a multiple of 15, with the condition
false — yet the run emits no progress message (the code additionally requires
`elapsed > 0`). -/
theorem generic_progress_not_emitted_at_zero :
    (0 : Int) % 15 = 0 ∧
    wait_with_timeout (fun _ => (.ok false : Except Unit Bool)) 1 1 =
      some ⟨.ok false, 1, 1, 1, []⟩ ∧
    wait_with_timeout (fun _ => (.ok false : Except Unit Bool)) 1 1 ≠
      some ⟨.ok false, 1, 1, 1, [0]⟩ := by
  refine ⟨by decide, by decide, by decide⟩

/-- Claim C8 as amended: on each poll iteration with a false condition the
generic poller emits a progress message exactly when the elapsed time is a
multiple of 15 AND positive, while the container variant emits exactly when the
elapsed time is a multiple of 10 (including elapsed 0); each such iteration
then sleeps for the check interval (sleep count equals poll count on a full
false run).  Characterized on full never-succeeding runs of both variants:
the emitted progress lists are exactly the clock values
`k * check_interval, k < ⌈timeout/interval⌉` filtered by those conditions. -/
theorem progress_emission_characterization :
    (∀ (ε : Type) (cond : Nat → Except ε Bool) (timeout check_interval : Int),
      1 ≤ timeout → 1 ≤ check_interval → (∀ i, cond i = .ok false) →
      (wait_with_timeout cond timeout check_interval).map
          (fun st => (st.progress, st.sleeps, st.polls)) =
        some (genProgress check_interval 0 (ceilDivN timeout.toNat check_interval.toNat),
          ceilDivN timeout.toNat check_interval.toNat,
          ceilDivN timeout.toNat check_interval.toNat)) ∧
    (∀ (logsAt : Nat → Except DockerError (List Nat)) (msgs : List (List Nat))
        (ls : Nat → List Nat) (timeout check_interval : Int),
      1 ≤ timeout → 1 ≤ check_interval →
      (∀ i, logsAt i = .ok (ls i)) →
      (∀ i, msgs.any (fun m => bytesContain (ls i) m) = false) →
      (wait_for_container (.ok ()) logsAt msgs timeout check_interval).map
          (fun r => (r.progress, r.sleeps, r.polls)) =
        some (contProgress check_interval 0 (ceilDivN timeout.toNat check_interval.toNat),
          ceilDivN timeout.toNat check_interval.toNat,
          ceilDivN timeout.toNat check_interval.toNat)) := by
  constructor
  · intro ε cond timeout check_interval hT hI hfalse
    obtain ⟨hstop, hlt, hle⟩ := stop_spec timeout check_interval hT hI
    unfold wait_with_timeout
    rw [waitLoop_false_run cond timeout check_interval _ hstop (timeout.toNat + 1) 0
      (by omega) (by omega) (fun m _ hm => hlt m hm) (fun i _ _ => hfalse i)]
    rfl
  · intro logsAt msgs ls timeout check_interval hT hI hlog hr
    obtain ⟨hstop, hlt, hle⟩ := stop_spec timeout check_interval hT hI
    unfold wait_for_container
    rw [containerLoop_false_run logsAt msgs ls timeout check_interval _ hstop
      (timeout.toNat + 1) 0 (by omega) (by omega) (fun m _ hm => hlt m hm)
      (fun i _ _ => hlog i) (fun i _ _ => hr i)]
    rfl

theorem progress_emission_characterization_witness :
    (wait_with_timeout (fun _ => (.ok false : Except Unit Bool)) 60 5).map
        (fun st => (st.progress, st.sleeps, st.polls)) = some ([15, 30, 45], 12, 12) ∧
    (wait_for_container (.ok ()) (fun _ => .ok []) [[1]] 25 2).map
        (fun r => (r.progress, r.sleeps, r.polls)) = some ([0, 10, 20], 13, 13) := by
  constructor
  · have h := progress_emission_characterization.1 Unit (fun _ => .ok false) 60 5
      (by norm_num) (by norm_num) (fun _ => rfl)
    rw [h]
    decide
  · have h := progress_emission_characterization.2 (fun _ => .ok []) [[1]] (fun _ => [])
      25 2 (by norm_num) (by norm_num) (fun _ => rfl) (fun _ => rfl)
    rw [h]
    decide

/-- Claim C9: `retry_operation` applied to a deterministic always-succeeding
operation is idempotent: in the pure embedding two calls with the same
operation are the same term, hence return the same result; each call invokes
the operation exactly once (returning its value) and performs no sleep. -/
theorem retry_idempotent_on_success {ε α : Type}
    (op : Nat → Except ε α) (max_retries delay : Int) (v : α)
    (hmr : 1 ≤ max_retries) (hop : op 0 = .ok v) :
    retry_operation op max_retries delay = retry_operation op max_retries delay ∧
    retry_operation op max_retries delay = ⟨.ok (some v), 1, []⟩ := by
  refine ⟨rfl, ?_⟩
  unfold retry_operation
  obtain ⟨k, hk⟩ : ∃ k, max_retries.toNat = k + 1 := ⟨max_retries.toNat - 1, by omega⟩
  rw [hk, retryFrom.eq_def]
  simp [hop]

theorem retry_idempotent_on_success_witness :
    retry_operation (fun _ => (.ok 7 : Except Unit Nat)) 3 2 =
      retry_operation (fun _ => (.ok 7 : Except Unit Nat)) 3 2 ∧
    retry_operation (fun _ => (.ok 7 : Except Unit Nat)) 3 2 = ⟨.ok (some 7), 1, []⟩ :=
  retry_idempotent_on_success (fun _ => (.ok 7 : Except Unit Nat)) 3 2 7 (by norm_num) rfl

/-- Claim C10: with `max_retries ≤ 0` the Python `range(max_retries)` is empty,
so the loop body never runs: `retry_operation` invokes the operation zero
times, raises nothing, sleeps never, and returns `None`. -/
theorem retry_nonpositive_retries_returns_none {ε α : Type}
    (op : Nat → Except ε α) (max_retries delay : Int) (hmr : max_retries ≤ 0) :
    retry_operation op max_retries delay = ⟨.ok none, 0, []⟩ := by
  unfold retry_operation
  have h : max_retries.toNat = 0 := by omega
  rw [h, retryFrom.eq_def]

theorem retry_nonpositive_retries_returns_none_witness :
    retry_operation (fun n => (.error n : Except Nat Nat)) 0 2 = ⟨.ok none, 0, []⟩ ∧
    retry_operation (fun n => (.error n : Except Nat Nat)) (-2) 2 = ⟨.ok none, 0, []⟩ :=
  ⟨retry_nonpositive_retries_returns_none (fun n => .error n) 0 2 (by norm_num),
    retry_nonpositive_retries_returns_none (fun n => .error n) (-2) 2 (by norm_num)⟩
